import Mathlib

/-!
Verification development for `generate_author_pages.py`, a tool that scans
markdown documents for author-attribution markers, loads an author registry
from configuration substitutions, and renders one page per author.

Documents and string values are modelled as `List Char`; the Python regular
expressions are embedded as explicit matching functions with the same
backtracking behaviour.
-/

/-- Characters matched by Python's `\s` (and stripped by `str.strip`) in the
ASCII range: space, tab, newline, carriage return, vertical tab, form feed. -/
def isPySpace (c : Char) : Bool :=
  c = ' ' || c = '\t' || c = '\n' || c = '\r' || c = Char.ofNat 11 || c = Char.ofNat 12

/-- Python `str.strip()`: drop leading and trailing whitespace. -/
def trimList (s : List Char) : List Char :=
  ((s.dropWhile isPySpace).reverse.dropWhile isPySpace).reverse

/-- Python `str.split(sep)` for a one-character separator: split at every
occurrence, keeping empty chunks. -/
def splitOnChar (sep : Char) : List Char → List (List Char)
  | [] => [[]]
  | c :: t =>
    if c = sep then [] :: splitOnChar sep t
    else
      match splitOnChar sep t with
      | [] => [[c]]
      | g :: gs => (c :: g) :: gs

/-- The literal letters of the word author, lower-case. -/
def authorWord : List Char := ['a', 'u', 't', 'h', 'o', 'r']

/-- Case-insensitive literal match: consume `pat` (given lower-case) from the
front of `s`, returning the remainder. -/
def stripCI : List Char → List Char → Option (List Char)
  | [], s => some s
  | _ :: _, [] => none
  | p :: ps, c :: cs => if c.toLower = p then stripCI ps cs else none

/-- The `s?:` part of the marker pattern: an optional (case-insensitive)
letter s followed by a mandatory colon. -/
def afterAuthor : List Char → Option (List Char)
  | [] => none
  | c :: t =>
    if c.toLower = 's' then
      match t with
      | ':' :: t2 => some t2
      | _ => none
    else if c = ':' then some t
    else none

/-- Scan for the next `*`, failing on a newline (Python `.` does not match
`\n`); returns the characters before the `*` and the remainder after it. -/
def scanToStar : List Char → Option (List Char × List Char)
  | [] => none
  | c :: t =>
    if c = '*' then some ([], t)
    else if c = '\n' then none
    else
      match scanToStar t with
      | some (g, r) => some (c :: g, r)
      | none => none

/-- The `(.+?)\*` part of the marker pattern: at least one non-newline
character, lazily, up to a closing `*`. -/
def matchGroup : List Char → Option (List Char × List Char)
  | [] => none
  | c :: t =>
    if c = '\n' then none
    else
      match scanToStar t with
      | some (g, r) => some (c :: g, r)
      | none => none

/-- The `\s*(.+?)\*` part: greedy whitespace with backtracking, then the lazy
group. Longer whitespace runs are preferred, exactly as the regex engine
does. -/
def spacesGroup : List Char → Option (List Char × List Char)
  | [] => none
  | c :: t =>
    if isPySpace c then
      match spacesGroup t with
      | some r => some r
      | none => matchGroup (c :: t)
    else matchGroup (c :: t)

/-- Attempt to match `AUTHOR_PATTERN = \*Authors?:\s*(.+?)\*` (IGNORECASE) at
the head of `s`; returns the captured group on success. -/
def matchAt (s : List Char) : Option (List Char) :=
  match s with
  | '*' :: t =>
    match stripCI authorWord t with
    | some u =>
      match afterAuthor u with
      | some v => (spacesGroup v).map Prod.fst
      | none => none
    | none => none
  | _ => none

/-- Model of `AUTHOR_PATTERN.search(content)`: the captured group of the leftmost
match, if any. -/
def searchMarker : List Char → Option (List Char)
  | [] => none
  | c :: t =>
    match matchAt (c :: t) with
    | some g => some g
    | none => searchMarker t

/-- Scan up to the first occurrence of `stop` (a negated character class
`[^x]+` is greedy but deterministic); returns the characters before it and
the remainder after it. -/
def takeUntil (stop : Char) : List Char → Option (List Char × List Char)
  | [] => none
  | c :: t =>
    if c = stop then some ([], t)
    else
      match takeUntil stop t with
      | some (a, b) => some (c :: a, b)
      | none => none

/-- Attempt to match `AUTHOR_LINK_PATTERN = \[([^\]]+)\]\([^)]+\)` at the
head of `s`; returns the captured display text and the remainder after the
whole match. -/
def matchLinkAt (s : List Char) : Option (List Char × List Char) :=
  match s with
  | '[' :: t =>
    match takeUntil ']' t with
    | some (g, r) =>
      if g.isEmpty then none
      else
        match r with
        | '(' :: r2 =>
          match takeUntil ')' r2 with
          | some (u, r3) => if u.isEmpty then none else some (g, r3)
          | none => none
        | _ => none
    | none => none
  | _ => none

/-- Fuelled worker for `linkFindall`; the fuel bounds the number of scan
steps, each of which consumes at least one character. -/
def linkFindallF : Nat → List Char → List (List Char)
  | 0, _ => []
  | _ + 1, [] => []
  | fuel + 1, c :: t =>
    match matchLinkAt (c :: t) with
    | some (g, r) => g :: linkFindallF fuel r
    | none => linkFindallF fuel t

/-- Model of `AUTHOR_LINK_PATTERN.findall(s)`: display texts of all non-overlapping
link matches, left to right. -/
def linkFindall (s : List Char) : List (List Char) :=
  linkFindallF s.length s

/-- Model of `extract_authors_from_file`, on the text of the file: search for the
attribution marker; inside it prefer markdown-link display texts
(lower-cased), otherwise split on commas (stripped and lower-cased). -/
def extract_authors (content : List Char) : List (List Char) :=
  match searchMarker content with
  | none => []
  | some t =>
    let links := linkFindall t
    if links.isEmpty then
      (splitOnChar ',' t).map (fun a => (trimList a).map Char.toLower)
    else
      links.map (List.map Char.toLower)

/-- Test `line.startswith('# ')`. -/
def isH1 (l : List Char) : Bool :=
  match l with
  | '#' :: ' ' :: _ => true
  | _ => false

/-- Model of `get_article_title`: the stripped text after `# ` on the first such line,
or the filename stem if there is none. -/
def get_article_title (content stem : List Char) : List Char :=
  match (splitOnChar '\n' content).find? isH1 with
  | some l => trimList (l.drop 2)
  | none => stem

/-- Python string comparison `a <= b` on code points: the ascending order
used when sorting article lists by filename stem. -/
def listLe : List Char → List Char → Bool
  | [], _ => true
  | _ :: _, [] => false
  | a :: as, b :: bs =>
    if a.toNat < b.toNat then true
    else if b.toNat < a.toNat then false
    else listLe as bs

/-- One `(file_stem, title, section)` tuple of `scan_articles`. -/
structure Entry where
  stem : List Char
  title : List Char
  sect : List Char
deriving DecidableEq

/-- A markdown document: its filename stem and its text. -/
structure Doc where
  stem : List Char
  content : List Char
deriving DecidableEq

/-- The static `SECTIONS` table. -/
def sectionsTable : List (List Char × List Char) :=
  [("01-introduction".data, "Getting Started".data),
   ("02-setup".data, "Getting Started".data),
   ("03-energy-basics".data, "Energy System Fundamentals".data),
   ("04-electricity-markets".data, "Energy System Fundamentals".data),
   ("05-optimization".data, "Modelling Techniques".data),
   ("06-capacity-expansion".data, "Modelling Techniques".data)]

/-- Lookup `SECTIONS.get(file_stem, "Other")`. -/
def sectionOf (sections : List (List Char × List Char)) (stem : List Char) : List Char :=
  match sections.find? (fun p => decide (p.1 = stem)) with
  | some p => p.2
  | none => "Other".data

/-- The reserved filename starts skipped by the scanner. -/
def reservedStarts : List (List Char) :=
  ["author-".data, "intro".data, "references".data]

/-- Test `md_file.name.startswith(('author-', 'intro', 'references'))`, the file
name being `stem ++ ".md"`. -/
def skipDoc (d : Doc) : Bool :=
  reservedStarts.any (fun p => p.isPrefixOf (d.stem ++ ".md".data))

/-- Step `author_articles[author].append(e)` on an insertion-ordered association
list (the `defaultdict(list)` of the scanner). -/
def addEntry (idx : List (List Char × List Entry)) (a : List Char) (e : Entry) :
    List (List Char × List Entry) :=
  match idx with
  | [] => [(a, [e])]
  | (b, es) :: rest =>
    if b = a then (b, es ++ [e]) :: rest else (b, es) :: addEntry rest a e

/-- Process one document of the scan loop: skip reserved files, otherwise
append one entry per credited author. -/
def addDoc (sections : List (List Char × List Char))
    (idx : List (List Char × List Entry)) (d : Doc) : List (List Char × List Entry) :=
  if skipDoc d then idx
  else
    (extract_authors d.content).foldl
      (fun i a =>
        addEntry i a ⟨d.stem, get_article_title d.content d.stem, sectionOf sections d.stem⟩)
      idx

/-- Stable insertion: the new entry goes after every entry whose stem is
`<=` its own. -/
def insortEntry (e : Entry) : List Entry → List Entry
  | [] => [e]
  | f :: fs => if listLe f.stem e.stem then f :: insortEntry e fs else e :: f :: fs

/-- Model of `articles.sort(key=lambda x: x[0])`: stable ascending sort by stem. -/
def sortEntries (l : List Entry) : List Entry :=
  l.foldl (fun acc e => insortEntry e acc) []

/-- Model of `scan_articles`: fold every document into the author index, then sort
each author's list by filename stem. -/
def scan_articles (docs : List Doc) (sections : List (List Char × List Char)) :
    List (List Char × List Entry) :=
  (docs.foldl (addDoc sections) []).map (fun p => (p.1, sortEntries p.2))

/-- An author profile as built by `load_authors_from_config`. -/
structure Profile where
  name : List Char
  bio : List Char
  github : List Char
  linkedin : List Char
  email : List Char
deriving DecidableEq

/-- Lookup `substitutions.get(k, dflt)`. -/
def subGet (subs : List (List Char × List Char)) (k dflt : List Char) : List Char :=
  match subs.find? (fun p => decide (p.1 = k)) with
  | some p => p.2
  | none => dflt

/-- Whether the substitutions table has key `k`. -/
def subHas (subs : List (List Char × List Char)) (k : List Char) : Bool :=
  (subs.find? (fun p => decide (p.1 = k))).isSome

/-- Test `key.endswith('_name')`. -/
def ends_name (k : List Char) : Bool :=
  "_name".data.isSuffixOf k

/-- Model of `key.replace('_name', '')`: delete every occurrence of `_name`, scanning
left to right. -/
def remove_name : List Char → List Char
  | '_' :: 'n' :: 'a' :: 'm' :: 'e' :: t => remove_name t
  | c :: t => c :: remove_name t
  | [] => []

/-- Worker for `titlecase`, carrying whether the previous character was a
letter. -/
def titleFrom : Bool → List Char → List Char
  | _, [] => []
  | prevAlpha, c :: t =>
    (if c.isAlpha then (if prevAlpha then c.toLower else c.toUpper) else c) ::
      titleFrom c.isAlpha t

/-- Python `str.title()` in the ASCII range: a letter is upper-cased when it
follows a non-letter and lower-cased otherwise. -/
def titlecase (s : List Char) : List Char :=
  titleFrom false s

/-- The author identifiers discovered from the keys ending in `_name` (the
code collects them into a set; modelled as first-occurrence order without
duplicates). -/
def author_ids (subs : List (List Char × List Char)) : List (List Char) :=
  (((subs.map Prod.fst).filter ends_name).map remove_name).dedup

/-- The profile dictionary built for one discovered identifier. -/
def profileOf (subs : List (List Char × List Char)) (id : List Char) : Profile :=
  { name := subGet subs (id ++ "_name".data) (titlecase id),
    bio := subGet subs (id ++ "_bio".data) [],
    github := subGet subs (id ++ "_github".data) [],
    linkedin := subGet subs (id ++ "_linkedin".data) [],
    email := subGet subs (id ++ "_email".data) [] }

/-- Model of `load_authors_from_config`, given the `myst_substitutions` table. -/
def load_authors_from_config (subs : List (List Char × List Char)) :
    List (List Char × Profile) :=
  (author_ids subs).map (fun i => (i, profileOf subs i))

/-- Model of `'\n'.join(lines)`. -/
def joinNl : List (List Char) → List Char
  | [] => []
  | [l] => l
  | l :: ls => l ++ '\n' :: joinNl ls

/-- The row of icon links (one string in the source, built by implicit
concatenation of three f-strings). -/
def iconsLine (p : Profile) : List Char :=
  "<a href=\"".data ++ p.github ++
    "\"><i class=\"fa-brands fa-github author-icon\"></i></a> <a href=\"".data ++
    p.linkedin ++
    "\"><i class=\"fa-brands fa-linkedin author-icon\"></i></a> <a href=\"mailto:".data ++
    p.email ++ "\"><i class=\"fa-solid fa-envelope author-icon\"></i></a>".data

/-- The table block emitted for a non-empty article list. -/
def tableLines (articles : List Entry) : List (List Char) :=
  ["```{list-table}".data, ":header-rows: 1".data, [], "* - Article".data,
   "  - Section".data]
    ++ articles.foldr
      (fun e acc => ("* - {doc}`".data ++ e.stem ++ "`".data) :: ("  - ".data ++ e.sect) :: acc)
      []
    ++ ["```".data]

/-- The line list of a rendered author page (the found-profile case of
`generate_author_page`). -/
def pageLines (id : List Char) (p : Profile) (articles : List Entry) :
    List (List Char) :=
  ["---".data, "orphan: true".data, "---".data, [],
   "(author-".data ++ id ++ "-page)=".data,
   "# ".data ++ p.name ++ " - Articles".data,
   [],
   iconsLine p,
   [],
   p.bio,
   [],
   "## Articles by ".data ++ p.name,
   []]
    ++ (if articles.isEmpty then ["*No articles found.*".data] else tableLines articles)
    ++ [[], "<a href=\"intro.html#".data ++ id ++ "\">← Back to About the Author</a>".data, []]

/-- The text of a rendered author page. -/
def renderPage (id : List Char) (p : Profile) (articles : List Entry) : List Char :=
  joinNl (pageLines id p articles)

/-- Lookup `AUTHORS.get(author_id)`. -/
def lookupReg (reg : List (List Char × Profile)) (id : List Char) : Option Profile :=
  (reg.find? (fun p => decide (p.1 = id))).map Prod.snd

/-- Model of `generate_author_page`: the page text (empty when the identifier has no
profile) together with the warning lines printed. -/
def generate_author_page (reg : List (List Char × Profile)) (id : List Char)
    (articles : List Entry) : List Char × List (List Char) :=
  match lookupReg reg id with
  | none => ([], [id])
  | some p => (renderPage id p articles, [])

/-- Lookup `author_articles.get(author_id, [])` on the scan result. -/
def getArticles (idx : List (List Char × List Entry)) (id : List Char) : List Entry :=
  match idx.find? (fun p => decide (p.1 = id)) with
  | some p => p.2
  | none => []

/-- The output path pattern `author-<id>.md`. -/
def authorFile (id : List Char) : List Char :=
  "author-".data ++ id ++ ".md".data

/-- One iteration of the `for author_id in AUTHORS` loop of `main`: render,
record the write when the content is non-empty, record the warnings. -/
def mainStep (reg : List (List Char × Profile)) (idx : List (List Char × List Entry))
    (acc : List (List Char × List Char) × List (List Char)) (id : List Char) :
    List (List Char × List Char) × List (List Char) :=
  let r := generate_author_page reg id (getArticles idx id)
  (if r.1 = [] then acc.1 else acc.1 ++ [(authorFile id, r.1)], acc.2 ++ r.2)

/-- Model of `main`: scan the documents, then render one page per registry author;
returns the `(filename, content)` writes and the warned identifiers. -/
def runMain (reg : List (List Char × Profile)) (docs : List Doc) :
    List (List Char × List Char) × List (List Char) :=
  (reg.map Prod.fst).foldl (mainStep reg (scan_articles docs sectionsTable)) ([], [])

/-- The files written by `main`. -/
def mainWrites (reg : List (List Char × Profile)) (docs : List Doc) :
    List (List Char × List Char) :=
  (runMain reg docs).1

/-- The missing-profile warnings printed by `main`. -/
def mainWarnings (reg : List (List Char × Profile)) (docs : List Doc) :
    List (List Char) :=
  (runMain reg docs).2

/-- Ascending-by-stem order on entries. -/
def entryLe (e f : Entry) : Prop := listLe e.stem f.stem = true

instance entryLeDec : DecidableRel entryLe := fun e f => by
  unfold entryLe
  infer_instance

lemma listLe_total : ∀ a b : List Char, listLe a b = true ∨ listLe b a = true := by
  intro a
  induction a with
  | nil => intro b; left; rfl
  | cons x xs ih =>
    intro b
    cases b with
    | nil => right; rfl
    | cons y ys =>
      by_cases hxy : x.toNat < y.toNat
      · left; simp [listLe, hxy]
      · by_cases hyx : y.toNat < x.toNat
        · right; simp [listLe, hyx]
        · rcases ih ys with h | h
          · left; simp [listLe, hxy, hyx, h]
          · right; simp [listLe, hyx, hxy, h]

lemma listLe_trans : ∀ a b c : List Char,
    listLe a b = true → listLe b c = true → listLe a c = true := by
  intro a
  induction a with
  | nil => intro b c _ _; rfl
  | cons x xs ih =>
    intro b c hab hbc
    cases b with
    | nil => simp [listLe] at hab
    | cons y ys =>
      cases c with
      | nil => simp [listLe] at hbc
      | cons z zs =>
        by_cases hxy : x.toNat < y.toNat
        · by_cases hyz : y.toNat < z.toNat
          · have hxz : x.toNat < z.toNat := Nat.lt_trans hxy hyz
            simp [listLe, hxz]
          · by_cases hzy : z.toNat < y.toNat
            · simp [listLe, hyz, hzy] at hbc
            · have hxz : x.toNat < z.toNat := by omega
              simp [listLe, hxz]
        · by_cases hyx : y.toNat < x.toNat
          · simp [listLe, hxy, hyx] at hab
          · have hab' : listLe xs ys = true := by simpa [listLe, hxy, hyx] using hab
            by_cases hyz : y.toNat < z.toNat
            · have hxz : x.toNat < z.toNat := by omega
              simp [listLe, hxz]
            · by_cases hzy : z.toNat < y.toNat
              · simp [listLe, hyz, hzy] at hbc
              · have hbc' : listLe ys zs = true := by simpa [listLe, hyz, hzy] using hbc
                have hxz : ¬ x.toNat < z.toNat := by omega
                have hzx : ¬ z.toNat < x.toNat := by omega
                simp [listLe, hxz, hzx, ih ys zs hab' hbc']

lemma mem_insortEntry {x e : Entry} :
    ∀ {l : List Entry}, x ∈ insortEntry e l → x = e ∨ x ∈ l := by
  intro l
  induction l with
  | nil =>
    intro h
    simp [insortEntry] at h
    exact Or.inl h
  | cons f fs ih =>
    intro h
    by_cases hle : listLe f.stem e.stem
    · rw [insortEntry, if_pos hle] at h
      rcases List.mem_cons.mp h with h | h
      · exact Or.inr (h ▸ List.mem_cons_self f fs)
      · rcases ih h with h' | h'
        · exact Or.inl h'
        · exact Or.inr (List.mem_cons_of_mem f h')
    · rw [insortEntry, if_neg hle] at h
      exact List.mem_cons.mp h

lemma pairwise_insortEntry {e : Entry} :
    ∀ {l : List Entry}, l.Pairwise entryLe → (insortEntry e l).Pairwise entryLe := by
  intro l
  induction l with
  | nil => intro _; simp [insortEntry, List.pairwise_singleton]
  | cons f fs ih =>
    intro hp
    rcases List.pairwise_cons.mp hp with ⟨hf, hfs⟩
    by_cases hle : listLe f.stem e.stem
    · rw [insortEntry, if_pos hle]
      refine List.pairwise_cons.mpr ⟨?_, ih hfs⟩
      intro x hx
      rcases mem_insortEntry hx with h | h
      · subst h; exact hle
      · exact hf x h
    · rw [insortEntry, if_neg hle]
      refine List.pairwise_cons.mpr ⟨?_, hp⟩
      intro x hx
      rcases List.mem_cons.mp hx with h | h
      · rw [h]
        rcases listLe_total f.stem e.stem with htot | htot
        · exact absurd htot hle
        · exact htot
      · have hef : listLe e.stem f.stem = true := by
          rcases listLe_total f.stem e.stem with htot | htot
          · exact absurd htot hle
          · exact htot
        exact listLe_trans e.stem f.stem x.stem hef (hf x h)

lemma pairwise_foldl_insort :
    ∀ (l acc : List Entry), acc.Pairwise entryLe →
      (l.foldl (fun a e => insortEntry e a) acc).Pairwise entryLe := by
  intro l
  induction l with
  | nil => intro acc h; exact h
  | cons e es ih => intro acc h; exact ih _ (pairwise_insortEntry h)

lemma pairwise_sortEntries (l : List Entry) : (sortEntries l).Pairwise entryLe :=
  pairwise_foldl_insort l [] List.Pairwise.nil

/-- C5: after the scan completes, every author's entry list in the index is
sorted by document identifier (filename stem) in ascending order. -/
theorem scan_articles_sorted (docs : List Doc) (sections : List (List Char × List Char))
    (a : List Char) (es : List Entry) (h : (a, es) ∈ scan_articles docs sections) :
    es.Pairwise entryLe := by
  unfold scan_articles at h
  rcases List.mem_map.mp h with ⟨p, _, hp⟩
  rw [Prod.ext_iff] at hp
  have h2 : sortEntries p.2 = es := hp.2
  rw [← h2]
  exact pairwise_sortEntries p.2

/-- Witness for C5 at a concrete two-document corpus whose files arrive in
descending stem order. -/
theorem scan_articles_sorted_witness :
    ([⟨"aa".data, "aa".data, "Other".data⟩,
      ⟨"zz".data, "zz".data, "Other".data⟩] : List Entry).Pairwise entryLe :=
  scan_articles_sorted
    [⟨"zz".data, "*Author: Bo*".data⟩, ⟨"aa".data, "*Author: Bo*".data⟩]
    sectionsTable "bo".data _ (by decide)

lemma find?_of_first {α : Type} (p : α → Bool) :
    ∀ (l : List α) (i : Nat) (h : i < l.length),
      p (l.get ⟨i, h⟩) = true →
      (∀ (j : Nat) (hj : j < i), p (l.get ⟨j, Nat.lt_trans hj h⟩) = false) →
      l.find? p = some (l.get ⟨i, h⟩) := by
  intro l
  induction l with
  | nil =>
    intro i h
    exact absurd h (Nat.not_lt_zero i)
  | cons c t ih =>
    intro i h hp hprev
    cases i with
    | zero =>
      have hc : (c :: t).get ⟨0, h⟩ = c := rfl
      rw [hc] at hp ⊢
      exact List.find?_cons_of_pos t hp
    | succ i' =>
      have h0 : p c = false := hprev 0 (Nat.succ_pos i')
      rw [List.find?_cons_of_neg _ (by simp [h0])]
      exact ih i' (Nat.lt_of_succ_lt_succ h) hp
        (fun j hj => hprev (j + 1) (Nat.succ_lt_succ hj))

/-- C4: title extraction returns the trimmed text after `# ` of the first
such line, independent of any other lines; if no line starts with `# `, it
returns the filename stem. -/
theorem get_article_title_spec (content stem : List Char) :
    ((∀ l ∈ splitOnChar '\n' content, isH1 l = false) →
      get_article_title content stem = stem) ∧
    (∀ (i : Nat) (h : i < (splitOnChar '\n' content).length),
      isH1 ((splitOnChar '\n' content).get ⟨i, h⟩) = true →
      (∀ (j : Nat) (hj : j < i),
        isH1 ((splitOnChar '\n' content).get ⟨j, Nat.lt_trans hj h⟩) = false) →
      get_article_title content stem =
        trimList (((splitOnChar '\n' content).get ⟨i, h⟩).drop 2)) := by
  constructor
  · intro hall
    have hnone : (splitOnChar '\n' content).find? isH1 = none :=
      List.find?_eq_none.mpr (fun x hx => by simp [hall x hx])
    unfold get_article_title
    rw [hnone]
  · intro i h hp hprev
    have hfind := find?_of_first isH1 (splitOnChar '\n' content) i h hp hprev
    unfold get_article_title
    rw [hfind]

/-- Witness for C4: a document whose first line is `# Grid Basics` followed
by lower-level headings, and a document with no level-1 heading. -/
theorem get_article_title_spec_witness :
    get_article_title "# Grid Basics\nsome text\n## Later".data "stem".data =
      "Grid Basics".data ∧
    get_article_title "no heading\n## only h2".data "stem".data = "stem".data :=
  ⟨((get_article_title_spec "# Grid Basics\nsome text\n## Later".data "stem".data).2
      0 (by decide) (by decide)
      (fun j hj => absurd hj (Nat.not_lt_zero j))).trans (by decide),
   (get_article_title_spec "no heading\n## only h2".data "stem".data).1 (by decide)⟩

lemma extract_authors_links_branch (content t : List Char)
    (h : searchMarker content = some t) (hl : linkFindall t ≠ []) :
    extract_authors content = (linkFindall t).map (List.map Char.toLower) := by
  have hemp : (linkFindall t).isEmpty = false := by
    cases hcase : linkFindall t with
    | nil => exact absurd hcase hl
    | cons a l => rfl
  unfold extract_authors
  rw [h]
  simp [hemp]

lemma extract_authors_plain_branch (content t : List Char)
    (h : searchMarker content = some t) (hl : linkFindall t = []) :
    extract_authors content =
      (splitOnChar ',' t).map (fun a => (trimList a).map Char.toLower) := by
  unfold extract_authors
  rw [h]
  simp [hl]

/-- C1 (amended): when the marker text contains markdown links, the
extractor returns exactly the link display texts, each lower-cased (the link
branch does not strip whitespace). -/
theorem extract_authors_link_texts (content t : List Char)
    (h : searchMarker content = some t) (hl : linkFindall t ≠ []) :
    extract_authors content = (linkFindall t).map (List.map Char.toLower) :=
  extract_authors_links_branch content t h hl

/-- Counterexample for C1 as stated: a link display text with surrounding
whitespace is lower-cased but not trimmed, so the result keeps the spaces. -/
theorem extract_authors_link_not_trimmed :
    extract_authors "*Author: [ Ada ](x.md#a)*".data = [" ada ".data] ∧
    extract_authors "*Author: [ Ada ](x.md#a)*".data ≠ ["ada".data] := by
  decide

/-- Witness for C1 at the spec's example marker. -/
theorem extract_authors_link_texts_witness :
    extract_authors "*Author: [Ada](x.md#ada), [Bo](y.md#bo)*".data =
      ["ada".data, "bo".data] :=
  (extract_authors_link_texts "*Author: [Ada](x.md#ada), [Bo](y.md#bo)*".data
      "[Ada](x.md#ada), [Bo](y.md#bo)".data (by decide) (by decide)).trans (by decide)

/-- C3: when the marker text contains no markdown links, the extractor
returns the comma-separated names, each stripped and lower-cased. -/
theorem extract_authors_plain_names (content t : List Char)
    (h : searchMarker content = some t) (hl : linkFindall t = []) :
    extract_authors content =
      (splitOnChar ',' t).map (fun a => (trimList a).map Char.toLower) :=
  extract_authors_plain_branch content t h hl

/-- Witness for C3 at the spec's example marker. -/
theorem extract_authors_plain_names_witness :
    extract_authors "*Authors: Ada, Bo*".data = ["ada".data, "bo".data] :=
  (extract_authors_plain_names "*Authors: Ada, Bo*".data "Ada, Bo".data
      (by decide) (by decide)).trans (by decide)

/-- C9: as soon as the marker text contains at least one markdown link,
every returned name is the lower-cased display text of one of the links —
plain names in the same marker are ignored. -/
theorem extract_authors_links_only (content t x : List Char)
    (h : searchMarker content = some t) (hl : linkFindall t ≠ [])
    (hx : x ∈ extract_authors content) :
    ∃ g ∈ linkFindall t, x = g.map Char.toLower := by
  rw [extract_authors_links_branch content t h hl] at hx
  rcases List.mem_map.mp hx with ⟨g, hg, hgx⟩
  exact ⟨g, hg, hgx.symm⟩

/-- Witness for C9 at a marker mixing a plain name and a link. -/
theorem extract_authors_links_only_witness :
    ∃ g ∈ linkFindall "Ada, [Bo](x.md#bo)".data, "bo".data = g.map Char.toLower :=
  extract_authors_links_only "*Authors: Ada, [Bo](x.md#bo)*".data
    "Ada, [Bo](x.md#bo)".data "bo".data (by decide) (by decide) (by decide)

/-- C10: the extractor's search uses the earliest position at which the
marker pattern matches; the captured text of any later marker is ignored. -/
theorem searchMarker_first (s : List Char) (i : Nat) (g : List Char)
    (hi : matchAt (List.drop i s) = some g)
    (hprev : ∀ j, j < i → matchAt (List.drop j s) = none) :
    searchMarker s = some g := by
  induction i generalizing s with
  | zero =>
    cases s with
    | nil => exact absurd hi (by simp [matchAt])
    | cons c t =>
      rw [List.drop_zero] at hi
      unfold searchMarker
      rw [hi]
  | succ i' ih =>
    cases s with
    | nil => exact absurd hi (by simp [matchAt])
    | cons c t =>
      have h0 : matchAt (c :: t) = none := by
        have := hprev 0 (Nat.succ_pos i')
        rwa [List.drop_zero] at this
      unfold searchMarker
      rw [h0]
      rw [List.drop_succ_cons] at hi
      exact ih t hi (fun j hj => by
        have := hprev (j + 1) (Nat.succ_lt_succ hj)
        rwa [List.drop_succ_cons] at this)

/-- Witness for C10: a document with two marker lines; only the first one's
author text is captured. -/
theorem searchMarker_first_witness :
    searchMarker "x*Author: Ada*y*Authors: Bo*".data = some "Ada".data :=
  searchMarker_first "x*Author: Ada*y*Authors: Bo*".data 1 "Ada".data (by decide)
    (fun j hj => by
      have hj0 : j = 0 := by omega
      subst hj0
      decide)

lemma addDoc_no_authors (sections : List (List Char × List Char))
    (idx : List (List Char × List Entry)) (d : Doc)
    (h : extract_authors d.content = []) : addDoc sections idx d = idx := by
  unfold addDoc
  by_cases hs : skipDoc d
  · simp [hs]
  · simp [hs, h]

/-- C8: a document with no attribution marker yields an empty author list
(not an error), and adding such a document to the corpus leaves the whole
author index unchanged. -/
theorem extract_authors_no_marker (content : List Char)
    (h : searchMarker content = none) :
    extract_authors content = [] ∧
    ∀ (docs : List Doc) (sections : List (List Char × List Char)) (stem : List Char),
      scan_articles (docs ++ [⟨stem, content⟩]) sections =
        scan_articles docs sections := by
  have hex : extract_authors content = [] := by
    unfold extract_authors
    rw [h]
  refine ⟨hex, ?_⟩
  intro docs sections stem
  unfold scan_articles
  rw [List.foldl_append]
  simp [addDoc_no_authors sections _ ⟨stem, content⟩ hex]

/-- Witness for C8 at a concrete marker-less document. -/
theorem extract_authors_no_marker_witness :
    extract_authors "hello\nworld".data = [] ∧
    scan_articles ([⟨"a".data, "# A\n*Author: Ada*".data⟩] ++
        [⟨"z".data, "hello\nworld".data⟩]) sectionsTable =
      scan_articles [⟨"a".data, "# A\n*Author: Ada*".data⟩] sectionsTable := by
  have h := extract_authors_no_marker "hello\nworld".data (by decide)
  exact ⟨h.1, h.2 [⟨"a".data, "# A\n*Author: Ada*".data⟩] sectionsTable "z".data⟩

lemma subGet_default (subs : List (List Char × List Char)) (k d : List Char)
    (h : subHas subs k = false) : subGet subs k d = d := by
  unfold subHas at h
  unfold subGet
  cases hf : subs.find? (fun p => decide (p.1 = k)) with
  | none => rfl
  | some v => rw [hf] at h; simp at h

lemma load_authors_keys (subs : List (List Char × List Char)) :
    (load_authors_from_config subs).map Prod.fst = author_ids subs := by
  unfold load_authors_from_config
  rw [List.map_map]
  have h : (Prod.fst ∘ fun i => (i, profileOf subs i)) = @id (List Char) := rfl
  rw [h, List.map_id]

/-- C2 (amended): for every substitutions key ending in `_name`, the loader
registers the identifier obtained by deleting every occurrence of `_name`
from the key (for an ordinary key `<id>_name`, the prefix `<id>`); all four
companion fields default to the empty string when their key is absent, and
the display name defaults to the title-cased identifier. -/
theorem load_authors_spec (subs : List (List Char × List Char)) :
    (∀ k ∈ subs.map Prod.fst, ends_name k = true →
      remove_name k ∈ (load_authors_from_config subs).map Prod.fst) ∧
    (∀ id p, (id, p) ∈ load_authors_from_config subs →
      (subHas subs (id ++ "_name".data) = false → p.name = titlecase id) ∧
      (subHas subs (id ++ "_bio".data) = false → p.bio = []) ∧
      (subHas subs (id ++ "_github".data) = false → p.github = []) ∧
      (subHas subs (id ++ "_linkedin".data) = false → p.linkedin = []) ∧
      (subHas subs (id ++ "_email".data) = false → p.email = [])) := by
  constructor
  · intro k hk hend
    rw [load_authors_keys]
    unfold author_ids
    exact List.mem_dedup.mpr (List.mem_map_of_mem _ (List.mem_filter.mpr ⟨hk, hend⟩))
  · intro id p hmem
    unfold load_authors_from_config at hmem
    rcases List.mem_map.mp hmem with ⟨i, _, heq⟩
    rw [Prod.ext_iff] at heq
    have h1 : i = id := heq.1
    have h2 : profileOf subs i = p := heq.2
    subst h1
    rw [← h2]
    exact ⟨fun hf => subGet_default subs _ _ hf, fun hf => subGet_default subs _ _ hf,
      fun hf => subGet_default subs _ _ hf, fun hf => subGet_default subs _ _ hf,
      fun hf => subGet_default subs _ _ hf⟩

/-- Counterexample for C2 as stated: `replace('_name', '')` deletes every
occurrence, so the key `first_name_name` registers the identifier `first`,
not the trailing-suffix prefix `first_name`. -/
theorem load_authors_replaces_all :
    ends_name "first_name_name".data = true ∧
    "first_name".data ∉
      (load_authors_from_config [("first_name_name".data, "X".data)]).map Prod.fst ∧
    (load_authors_from_config [("first_name_name".data, "X".data)]).map Prod.fst =
      ["first".data] := by
  decide

/-- Witness for C2 on a one-author substitutions table with only the name
key present. -/
theorem load_authors_spec_witness :
    remove_name "ada_name".data ∈
      (load_authors_from_config [("ada_name".data, "Ada Lovelace".data)]).map Prod.fst ∧
    (profileOf [("ada_name".data, "Ada Lovelace".data)] "ada".data).bio = [] :=
  ⟨(load_authors_spec [("ada_name".data, "Ada Lovelace".data)]).1 "ada_name".data
      (by decide) (by decide),
   ((load_authors_spec [("ada_name".data, "Ada Lovelace".data)]).2 "ada".data
      (profileOf [("ada_name".data, "Ada Lovelace".data)] "ada".data) (by decide)).2.1
      (by decide)⟩

lemma lookupReg_isSome_of_mem (reg : List (List Char × Profile)) (k : List Char)
    (hk : k ∈ reg.map Prod.fst) : (lookupReg reg k).isSome = true := by
  induction reg with
  | nil => simp at hk
  | cons a t ih =>
    rw [List.map_cons, List.mem_cons] at hk
    by_cases h : a.1 = k
    · unfold lookupReg
      rw [List.find?_cons_of_pos _ (by simp [h])]
      rfl
    · have hk' : k ∈ t.map Prod.fst := by
        rcases hk with h1 | h1
        · exact absurd h1.symm h
        · exact h1
      unfold lookupReg at ih ⊢
      rw [List.find?_cons_of_neg _ (by simp [h])]
      exact ih hk'

lemma lookupReg_eq_none_of_not_mem (reg : List (List Char × Profile)) (k : List Char)
    (hk : k ∉ reg.map Prod.fst) : lookupReg reg k = none := by
  have h : reg.find? (fun p => decide (p.1 = k)) = none := by
    refine List.find?_eq_none.mpr ?_
    intro x hx
    simp only [decide_eq_true_eq]
    intro hxk
    exact hk (hxk ▸ List.mem_map_of_mem Prod.fst hx)
  unfold lookupReg
  rw [h]
  rfl

lemma mem_of_lookupReg_some (reg : List (List Char × Profile)) (k : List Char)
    (p : Profile) (h : lookupReg reg k = some p) : k ∈ reg.map Prod.fst := by
  unfold lookupReg at h
  cases hf : reg.find? (fun q => decide (q.1 = k)) with
  | none => rw [hf] at h; simp at h
  | some q =>
    have hq := List.find?_some hf
    simp only [decide_eq_true_eq] at hq
    exact hq ▸ List.mem_map_of_mem Prod.fst (List.mem_of_find?_eq_some hf)

lemma joinNl_cons_cons (a b : List Char) (t : List (List Char)) :
    joinNl (a :: b :: t) = a ++ '\n' :: joinNl (b :: t) := rfl

lemma joinNl_ne_nil (a : List Char) (ls : List (List Char)) (ha : a ≠ []) :
    joinNl (a :: ls) ≠ [] := by
  cases ls with
  | nil => exact ha
  | cons b t =>
    rw [joinNl_cons_cons]
    intro hcontra
    rcases List.append_eq_nil.mp hcontra with ⟨_, h2⟩
    exact List.cons_ne_nil _ _ h2

lemma renderPage_ne_nil (id : List Char) (p : Profile) (arts : List Entry) :
    renderPage id p arts ≠ [] := by
  have h : ∃ ls, pageLines id p arts = "---".data :: ls := ⟨_, rfl⟩
  rcases h with ⟨ls, hls⟩
  unfold renderPage
  rw [hls]
  exact joinNl_ne_nil _ _ (by decide)

lemma joinNl_line_contained : ∀ (ls : List (List Char)) (l : List Char),
    l ∈ ls → l <:+: joinNl ls := by
  intro ls
  induction ls with
  | nil => intro l h; simp at h
  | cons a t ih =>
    intro l h
    cases t with
    | nil =>
      have hla : l = a := by simpa using h
      rw [hla]
      exact List.infix_refl a
    | cons b t' =>
      rw [joinNl_cons_cons]
      rcases List.mem_cons.mp h with h1 | h1
      · rw [h1]
        exact (List.prefix_append a ('\n' :: joinNl (b :: t'))).isInfix
      · have h2 := ih l h1
        have h3 : joinNl (b :: t') <:+: a ++ '\n' :: joinNl (b :: t') :=
          ((List.suffix_cons '\n' (joinNl (b :: t'))).trans
            (List.suffix_append a ('\n' :: joinNl (b :: t')))).isInfix
        exact h2.trans h3

lemma mem_char_joinNl : ∀ (ls : List (List Char)) (c : Char), c ∈ joinNl ls →
    c = '\n' ∨ ∃ l ∈ ls, c ∈ l := by
  intro ls
  induction ls with
  | nil => intro c h; simp [joinNl] at h
  | cons a t ih =>
    intro c h
    cases t with
    | nil =>
      right
      exact ⟨a, List.mem_cons_self a [], h⟩
    | cons b t' =>
      rw [joinNl_cons_cons] at h
      rcases List.mem_append.mp h with h1 | h1
      · exact Or.inr ⟨a, List.mem_cons_self a _, h1⟩
      · rcases List.mem_cons.mp h1 with h2 | h2
        · exact Or.inl h2
        · rcases ih c h2 with h3 | ⟨l, hl, hcl⟩
          · exact Or.inl h3
          · exact Or.inr ⟨l, List.mem_cons_of_mem a hl, hcl⟩

lemma not_mem_append {c : Char} {a b : List Char} (ha : c ∉ a) (hb : c ∉ b) :
    c ∉ a ++ b := by
  intro h
  rcases List.mem_append.mp h with h | h
  · exact ha h
  · exact hb h

lemma pageLines_nil (id : List Char) (p : Profile) :
    pageLines id p [] =
      ["---".data, "orphan: true".data, "---".data, [],
       "(author-".data ++ id ++ "-page)=".data,
       "# ".data ++ p.name ++ " - Articles".data,
       [], iconsLine p, [], p.bio, [],
       "## Articles by ".data ++ p.name, [],
       "*No articles found.*".data,
       [], "<a href=\"intro.html#".data ++ id ++ "\">← Back to About the Author</a>".data,
       []] := rfl

lemma foldl_mainStep_spec (reg : List (List Char × Profile))
    (idx : List (List Char × List Entry)) :
    ∀ (ids : List (List Char)) (acc : List (List Char × List Char) × List (List Char)),
      (ids.foldl (mainStep reg idx) acc).1 =
        acc.1 ++ (ids.filter (fun k => (lookupReg reg k).isSome)).map
          (fun k => (authorFile k, (generate_author_page reg k (getArticles idx k)).1)) ∧
      (ids.foldl (mainStep reg idx) acc).2 =
        acc.2 ++ ids.filter (fun k => (lookupReg reg k).isNone) := by
  intro ids
  induction ids with
  | nil => intro acc; simp
  | cons k ks ih =>
    intro acc
    rw [List.foldl_cons]
    cases hk : lookupReg reg k with
    | some p =>
      have hgen : generate_author_page reg k (getArticles idx k) =
          (renderPage k p (getArticles idx k), []) := by
        unfold generate_author_page
        rw [hk]
      have hstep : mainStep reg idx acc k =
          (acc.1 ++ [(authorFile k, renderPage k p (getArticles idx k))], acc.2) := by
        unfold mainStep
        rw [hgen]
        simp [renderPage_ne_nil]
      rw [hstep]
      rcases ih (acc.1 ++ [(authorFile k, renderPage k p (getArticles idx k))], acc.2)
        with ⟨h1, h2⟩
      constructor
      · rw [h1, List.filter_cons_of_pos (by simp [hk]), List.map_cons, hgen]
        simp
      · rw [h2, List.filter_cons_of_neg (by simp [hk])]
    | none =>
      have hstep : mainStep reg idx acc k = (acc.1, acc.2 ++ [k]) := by
        unfold mainStep generate_author_page
        rw [hk]
        simp
      rw [hstep]
      rcases ih (acc.1, acc.2 ++ [k]) with ⟨h1, h2⟩
      constructor
      · rw [h1, List.filter_cons_of_neg (by simp [hk])]
      · rw [h2, List.filter_cons_of_pos (by simp [hk])]
        simp

lemma mainWarnings_nil (reg : List (List Char × Profile)) (docs : List Doc) :
    mainWarnings reg docs = [] := by
  unfold mainWarnings runMain
  rcases foldl_mainStep_spec reg (scan_articles docs sectionsTable)
    (reg.map Prod.fst) ([], []) with ⟨_, h2⟩
  have hall : ∀ k ∈ reg.map Prod.fst, ¬ ((lookupReg reg k).isNone = true) := by
    intro k hkmem
    have hs := lookupReg_isSome_of_mem reg k hkmem
    cases hcase : lookupReg reg k with
    | none => rw [hcase] at hs; simp at hs
    | some p => simp
  rw [h2, List.filter_eq_nil_iff.mpr hall]
  rfl

/-- C6 (amended): an author identifier credited in attributions but absent
from the registry is never rendered by `main` (only registry identifiers are
iterated), so no file is written for it; the renderer, were it invoked for
such an identifier, would return empty content; but no warning is actually
printed during the run — the omission is silent. -/
theorem unregistered_author_skipped (reg : List (List Char × Profile)) (docs : List Doc)
    (id : List Char) (h : id ∉ reg.map Prod.fst) :
    (generate_author_page reg id (getArticles (scan_articles docs sectionsTable) id)).1
      = [] ∧
    mainWarnings reg docs = [] ∧
    authorFile id ∉ (mainWrites reg docs).map Prod.fst := by
  refine ⟨?_, mainWarnings_nil reg docs, ?_⟩
  · unfold generate_author_page
    rw [lookupReg_eq_none_of_not_mem reg id h]
  · unfold mainWrites runMain
    rcases foldl_mainStep_spec reg (scan_articles docs sectionsTable)
      (reg.map Prod.fst) ([], []) with ⟨h1, _⟩
    rw [h1, List.nil_append]
    intro hcontra
    rw [List.map_map] at hcontra
    rcases List.mem_map.mp hcontra with ⟨k, hkmem, hkeq⟩
    have hkeq' : authorFile k = authorFile id := hkeq
    have hk_id : k = id := by
      unfold authorFile at hkeq'
      have hmid : "author-".data ++ k = "author-".data ++ id :=
        List.append_cancel_right hkeq'
      exact List.append_cancel_left hmid
    have hkreg : k ∈ reg.map Prod.fst := List.mem_of_mem_filter hkmem
    rw [hk_id] at hkreg
    exact h hkreg

/-- Counterexample for C6 as stated: with registry `{ada}` and a document
crediting only `bo`, the run prints no warning at all for `bo`. -/
theorem unregistered_author_no_warning :
    "bo".data ∈ extract_authors "*Author: Bo*".data ∧
    "bo".data ∉ ([("ada".data, ⟨"Ada".data, [], [], [], []⟩)] :
      List (List Char × Profile)).map Prod.fst ∧
    mainWarnings [("ada".data, ⟨"Ada".data, [], [], [], []⟩)]
      [⟨"x".data, "*Author: Bo*".data⟩] = [] := by
  decide

/-- Witness for C6 (amended) at the same concrete registry and corpus. -/
theorem unregistered_author_skipped_witness :
    (generate_author_page [("ada".data, ⟨"Ada".data, [], [], [], []⟩)] "bo".data
      (getArticles (scan_articles [⟨"x".data, "*Author: Bo*".data⟩] sectionsTable)
        "bo".data)).1 = [] ∧
    mainWarnings [("ada".data, ⟨"Ada".data, [], [], [], []⟩)]
      [⟨"x".data, "*Author: Bo*".data⟩] = [] ∧
    authorFile "bo".data ∉
      (mainWrites [("ada".data, ⟨"Ada".data, [], [], [], []⟩)]
        [⟨"x".data, "*Author: Bo*".data⟩]).map Prod.fst :=
  unregistered_author_skipped [("ada".data, ⟨"Ada".data, [], [], [], []⟩)]
    [⟨"x".data, "*Author: Bo*".data⟩] "bo".data (by decide)

lemma no_backtick_in_pageLines (id : List Char) (p : Profile)
    (h1 : Char.ofNat 96 ∉ id) (h2 : Char.ofNat 96 ∉ p.name) (h3 : Char.ofNat 96 ∉ p.bio)
    (h4 : Char.ofNat 96 ∉ p.github) (h5 : Char.ofNat 96 ∉ p.linkedin)
    (h6 : Char.ofNat 96 ∉ p.email) :
    ∀ l ∈ pageLines id p [], Char.ofNat 96 ∉ l := by
  intro l hl
  rw [pageLines_nil] at hl
  simp only [List.mem_cons, List.not_mem_nil, or_false] at hl
  rcases hl with h | h | h | h | h | h | h | h | h | h | h | h | h | h | h | h | h
  · subst h; decide
  · subst h; decide
  · subst h; decide
  · subst h; decide
  · subst h
    exact not_mem_append (not_mem_append (by decide) h1) (by decide)
  · subst h
    exact not_mem_append (not_mem_append (by decide) h2) (by decide)
  · subst h; decide
  · subst h
    unfold iconsLine
    exact not_mem_append (not_mem_append (not_mem_append (not_mem_append
      (not_mem_append (not_mem_append (by decide) h4) (by decide)) h5)
      (by decide)) h6) (by decide)
  · subst h; decide
  · subst h; exact h3
  · subst h; decide
  · subst h
    exact not_mem_append (by decide) h2
  · subst h; decide
  · subst h; decide
  · subst h; decide
  · subst h
    exact not_mem_append (not_mem_append (by decide) h1) (by decide)
  · subst h; decide

lemma no_backtick_in_renderPage (id : List Char) (p : Profile)
    (h1 : Char.ofNat 96 ∉ id) (h2 : Char.ofNat 96 ∉ p.name) (h3 : Char.ofNat 96 ∉ p.bio)
    (h4 : Char.ofNat 96 ∉ p.github) (h5 : Char.ofNat 96 ∉ p.linkedin)
    (h6 : Char.ofNat 96 ∉ p.email) :
    Char.ofNat 96 ∉ renderPage id p [] := by
  intro hmem
  unfold renderPage at hmem
  rcases mem_char_joinNl _ _ hmem with h | ⟨l, hl, hcl⟩
  · exact absurd h (by decide)
  · exact no_backtick_in_pageLines id p h1 h2 h3 h4 h5 h6 l hl hcl

lemma placeholder_in_renderPage (id : List Char) (p : Profile) :
    "No articles found.".data <:+: renderPage id p [] := by
  have hmem : ("*No articles found.*".data : List Char) ∈ pageLines id p [] := by
    rw [pageLines_nil]
    simp
  have hline := joinNl_line_contained _ _ hmem
  have hsub : "No articles found.".data <:+: "*No articles found.*".data := by decide
  exact hsub.trans hline

lemma fence_absent_renderPage (id : List Char) (p : Profile)
    (h1 : Char.ofNat 96 ∉ id) (h2 : Char.ofNat 96 ∉ p.name) (h3 : Char.ofNat 96 ∉ p.bio)
    (h4 : Char.ofNat 96 ∉ p.github) (h5 : Char.ofNat 96 ∉ p.linkedin)
    (h6 : Char.ofNat 96 ∉ p.email) :
    ¬ ("```{list-table}".data <:+: renderPage id p []) := by
  intro hinf
  have hbt : Char.ofNat 96 ∈ ("```{list-table}".data : List Char) := by decide
  exact no_backtick_in_renderPage id p h1 h2 h3 h4 h5 h6 (hinf.subset hbt)

/-- C7: a registry author with zero credited articles still gets their page
written by `main`; the rendered page contains the literal empty-state
placeholder and no list-table block (for profiles whose free-text fields
contain no backtick, which would open a table fence of their own). -/
theorem registry_author_empty_page (reg : List (List Char × Profile)) (docs : List Doc)
    (id : List Char) (p : Profile)
    (hreg : lookupReg reg id = some p)
    (harts : getArticles (scan_articles docs sectionsTable) id = [])
    (h1 : Char.ofNat 96 ∉ id) (h2 : Char.ofNat 96 ∉ p.name) (h3 : Char.ofNat 96 ∉ p.bio)
    (h4 : Char.ofNat 96 ∉ p.github) (h5 : Char.ofNat 96 ∉ p.linkedin)
    (h6 : Char.ofNat 96 ∉ p.email) :
    (authorFile id, renderPage id p []) ∈ mainWrites reg docs ∧
    "No articles found.".data <:+: renderPage id p [] ∧
    ¬ ("```{list-table}".data <:+: renderPage id p []) := by
  refine ⟨?_, placeholder_in_renderPage id p, fence_absent_renderPage id p h1 h2 h3 h4 h5 h6⟩
  unfold mainWrites runMain
  rcases foldl_mainStep_spec reg (scan_articles docs sectionsTable)
    (reg.map Prod.fst) ([], []) with ⟨hw, _⟩
  rw [hw, List.nil_append]
  have hmem : id ∈ (reg.map Prod.fst).filter (fun k => (lookupReg reg k).isSome) :=
    List.mem_filter.mpr ⟨mem_of_lookupReg_some reg id p hreg, by simp [hreg]⟩
  have hgen : (generate_author_page reg id
      (getArticles (scan_articles docs sectionsTable) id)).1 = renderPage id p [] := by
    unfold generate_author_page
    rw [hreg, harts]
  have hmap := List.mem_map_of_mem
    (fun k => (authorFile k,
      (generate_author_page reg k (getArticles (scan_articles docs sectionsTable) k)).1))
    hmem
  have hmap' : (authorFile id,
      (generate_author_page reg id (getArticles (scan_articles docs sectionsTable) id)).1) ∈
      (List.filter (fun k => (lookupReg reg k).isSome) (reg.map Prod.fst)).map
        (fun k => (authorFile k,
          (generate_author_page reg k (getArticles (scan_articles docs sectionsTable) k)).1)) :=
    hmap
  rw [hgen] at hmap'
  exact hmap'

/-- Witness for C7: a one-author registry with an empty corpus. -/
theorem registry_author_empty_page_witness :
    (authorFile "ada".data,
      renderPage "ada".data ⟨"Ada".data, [], [], [], []⟩ []) ∈
      mainWrites [("ada".data, ⟨"Ada".data, [], [], [], []⟩)] [] ∧
    "No articles found.".data <:+:
      renderPage "ada".data ⟨"Ada".data, [], [], [], []⟩ [] ∧
    ¬ ("```{list-table}".data <:+:
      renderPage "ada".data ⟨"Ada".data, [], [], [], []⟩ []) :=
  registry_author_empty_page [("ada".data, ⟨"Ada".data, [], [], [], []⟩)] []
    "ada".data ⟨"Ada".data, [], [], [], []⟩ (by decide) (by decide) (by decide)
    (by decide) (by decide) (by decide) (by decide) (by decide)
